import Mathlib

/-!
Shallow embedding of shadowenv's activation engine (`src/hook.rs`) and the
boundary contracts of its collaborators (hash, undo ledger, shadow context,
directory scanner, configuration runtime, shell escaping), which are not part
of the provided sources and are therefore modelled from the specification.

Wire-format strings are modelled as `List Char`; machine integers (the u64
hash value) are modelled as `Nat` with an explicit `< 2 ^ 64` bound where it
matters.
-/

/-- Error taxonomy of the engine (spec §7): `parseError` for a malformed
previous-state hash or ledger, `ioError` for directory-scan / file-read /
hashing failures, `shadowlispError` for the opaque configuration-evaluation
failure surfaced by `load_env`. -/
inductive Err where
  | parseError : Err
  | ioError : Err
  | shadowlispError : Err
deriving DecidableEq, Repr

instance instDecEqExcept {ε α : Type} [DecidableEq ε] [DecidableEq α] :
    DecidableEq (Except ε α) := fun a b =>
  match a, b with
  | .ok x, .ok y =>
    if h : x = y then isTrue (by rw [h]) else isFalse (by intro hc; cases hc; exact h rfl)
  | .error x, .error y =>
    if h : x = y then isTrue (by rw [h]) else isFalse (by intro hc; cases hc; exact h rfl)
  | .ok _, .error _ => isFalse (by intro hc; cases hc)
  | .error _, .ok _ => isFalse (by intro hc; cases hc)

/-- Hash: an opaque fixed-size value (u64 in the source), compared only for
equality.  Corresponds to `crate::hash::Hash` (field `hash`). -/
structure Hash where
  hash : Nat
deriving DecidableEq, Repr

/-- Value of one lowercase hexadecimal digit; `none` on any other char. -/
def hexDigitVal (c : Char) : Option Nat :=
  if c = '0' then some 0
  else if c = '1' then some 1
  else if c = '2' then some 2
  else if c = '3' then some 3
  else if c = '4' then some 4
  else if c = '5' then some 5
  else if c = '6' then some 6
  else if c = '7' then some 7
  else if c = '8' then some 8
  else if c = '9' then some 9
  else if c = 'a' then some 10
  else if c = 'b' then some 11
  else if c = 'c' then some 12
  else if c = 'd' then some 13
  else if c = 'e' then some 14
  else if c = 'f' then some 15
  else none

/-- Lowercase hexadecimal digit for a value below 16 (defaults to '0'). -/
def hexDigitChar (n : Nat) : Char :=
  match n with
  | 0 => '0'
  | 1 => '1'
  | 2 => '2'
  | 3 => '3'
  | 4 => '4'
  | 5 => '5'
  | 6 => '6'
  | 7 => '7'
  | 8 => '8'
  | 9 => '9'
  | 10 => 'a'
  | 11 => 'b'
  | 12 => 'c'
  | 13 => 'd'
  | 14 => 'e'
  | 15 => 'f'
  | _ => '0'

/-- Accumulating big-endian hex parse: `none` on the first non-hex char. -/
def hexAcc : List Char → Nat → Option Nat
  | [], acc => some acc
  | c :: r, acc =>
    match hexDigitVal c with
    | some d => hexAcc r (16 * acc + d)
    | none => none

/-- Modelled from the spec: `Hash::from_str` (in the absent `src/hash.rs`)
parses the canonical textual encoding of a hash — 16 hexadecimal digits —
and fails with a `ParseError` on any other input. -/
def Hash.from_str (cs : List Char) : Except Err Hash :=
  if cs.length = 16 then
    match hexAcc cs 0 with
    | some n => .ok ⟨n⟩
    | none => .error .parseError
  else .error .parseError

/-- Little-endian digit list (least significant first) of fixed width. -/
def toHexRev : Nat → Nat → List Char
  | 0, _ => []
  | w + 1, n => hexDigitChar (n % 16) :: toHexRev w (n / 16)

/-- Modelled from the spec: the canonical textual form of a hash value is its
16-digit zero-padded lowercase hexadecimal rendering. -/
def toHex16 (n : Nat) : List Char :=
  (toHexRev 16 n).reverse

/-- Rust `shadowenv_data.splitn(2, ":")`: everything before the first colon,
and (when a colon exists) everything after it. -/
def splitn2 : List Char → List Char × Option (List Char)
  | [] => ([], none)
  | c :: r =>
    if c = ':' then ([], some r)
    else
      let p := splitn2 r
      (c :: p.1, p.2)

/-- First field of the previous-state string (`prev_hash` in `load_env`). -/
def hashField (cs : List Char) : List Char :=
  (splitn2 cs).1

/-- Second field of the previous-state string, defaulting to the empty JSON
object when no colon is present (`json_data` in `load_env`). -/
def ledgerField (cs : List Char) : List Char :=
  (splitn2 cs).2.getD ('{' :: ['}'])

/-- The match on `prev_hash` in `load_env` (src/hook.rs lines 40–45): the
empty field and the all-zero sentinel parse to absence; everything else
is handed to `Hash::from_str`. -/
def parseActive (prev : List Char) : Except Err (Option Hash) :=
  if prev = [] then .ok none
  else if prev = "0000000000000000".data then .ok none
  else
    match Hash.from_str prev with
    | .ok h => .ok (some h)
    | .error e => .error e

/-- Modelled from the spec: the Undo Ledger (`undo::Data`, absent
`src/undo.rs`) is an ordered mapping from variable name to its original
value, or `none` for "was unset". -/
structure Data where
  entries : List (String × Option String)
deriving DecidableEq, Repr

/-- JSON string-body parse: consumes up to the closing quote, handling
backslash escapes; returns the decoded chars and the remaining input. -/
def jstr : List Char → Option (List Char × List Char)
  | [] => none
  | c :: r =>
    if c = '"' then some ([], r)
    else if c = '\\' then
      match r with
      | c2 :: r2 =>
        match jstr r2 with
        | some (acc, rest) => some (c2 :: acc, rest)
        | none => none
      | [] => none
    else
      match jstr r with
      | some (acc, rest) => some (c :: acc, rest)
      | none => none

/-- JSON ledger value: a quoted string or the literal `null` ("was unset"). -/
def jval : List Char → Option (Option (List Char) × List Char)
  | '"' :: r =>
    match jstr r with
    | some (s, rest) => some (some s, rest)
    | none => none
  | 'n' :: 'u' :: 'l' :: 'l' :: r => some (none, r)
  | _ => none

/-- Comma-separated `"name":value` pairs of the ledger object; fuelled by the
input length. -/
def jpairs : Nat → List Char → Option (List (List Char × Option (List Char)) × List Char)
  | 0, _ => none
  | fuel + 1, '"' :: r =>
    match jstr r with
    | none => none
    | some (k, r1) =>
      match r1 with
      | ':' :: r2 =>
        match jval r2 with
        | none => none
        | some (v, r3) =>
          match r3 with
          | ',' :: r4 =>
            match jpairs fuel r4 with
            | some (ps, rest) => some ((k, v) :: ps, rest)
            | none => none
          | _ => some ([(k, v)], r3)
      | _ => none
  | _ + 1, _ => none

/-- Modelled from the spec: `undo::Data::from_str` parses the ledger part of
the previous-state string as a structured JSON document; a malformed ledger
is a hard `ParseError`. -/
def Data.from_str (cs : List Char) : Except Err Data :=
  match cs with
  | '{' :: r =>
    match r with
    | '}' :: rest => if rest = [] then .ok ⟨[]⟩ else .error .parseError
    | _ =>
      match jpairs cs.length r with
      | some (ps, '}' :: rest) =>
        if rest = [] then
          .ok ⟨ps.map (fun p => (String.mk p.1, p.2.map String.mk))⟩
        else .error .parseError
      | _ => .error .parseError
  | _ => .error .parseError

/-- JSON string escaping for ledger serialization. -/
def jEscape : List Char → List Char
  | [] => []
  | c :: r => (if c = '"' ∨ c = '\\' then ['\\', c] else [c]) ++ jEscape r

/-- Concatenation of chunks with a separator between consecutive chunks. -/
def joinSep (sep : List Char) : List (List Char) → List Char
  | [] => []
  | [a] => a
  | a :: b :: t => a ++ sep ++ joinSep sep (b :: t)

/-- One serialized ledger entry: `"name":"value"` or `"name":null`. -/
def serializeEntry : String × Option String → List Char
  | (k, some v) => '"' :: (jEscape k.data ++ '"' :: ':' :: '"' :: (jEscape v.data ++ ['"']))
  | (k, none) => '"' :: (jEscape k.data ++ '"' :: ':' :: "null".data)

/-- Modelled from the spec: the ledger serializes as a JSON object. -/
def serializeData (d : Data) : List Char :=
  '{' :: (joinSep [','] (d.entries.map serializeEntry) ++ ['}'])

/-- Modelled from the spec: a discovered configuration `Source` (absent
`src/hash.rs` / `src/loader.rs`), reduced to its boundary behavior — the
(fallible, deterministic) content hash `hash()`, and the outcome of handing
it to the configuration runtime `ShadowLang::run_program`: an opaque failure,
or the export/unset operations and feature labels it applies to the shadow
context. -/
structure Source where
  hashResult : Except Err Nat
  runResult : Except Unit (List (String × Option String) × List String)
deriving DecidableEq

/-- Modelled from the spec: the Shadow Context (`crate::shadowenv::Shadowenv`,
absent `src/shadowenv.rs`): the process environment snapshot, the undo
ledger, the target hash, and the accumulating export/unset operations and
feature labels contributed by the configuration program. -/
structure Shadowenv where
  env_vars : List (String × String)
  data : Data
  target_hash : Nat
  mutations : List (String × Option String)
  features : List String
deriving DecidableEq

/-- Corresponds to `Shadowenv::new(env::vars().collect(), data, target_hash)`:
a fresh context with no program-applied operations yet. -/
def Shadowenv.new (vars : List (String × String)) (d : Data) (th : Nat) : Shadowenv :=
  ⟨vars, d, th, [], []⟩

/-- Modelled from the spec: the context's export/unset set is derived from
replaying the Undo Ledger (restore every previously-recorded variable),
overridden by the configuration program's own operations. -/
def Shadowenv.exports (sh : Shadowenv) : List (String × Option String) :=
  sh.data.entries.filter (fun e => sh.mutations.all (fun m => m.1 ≠ e.1)) ++ sh.mutations

/-- Modelled from the spec: `Shadowenv::format_shadowenv_data` renders the new
opaque state string `<hash-hex>:<json-ledger>` from the target hash and the
ledger. -/
def formatShadowenvData (sh : Shadowenv) : List Char :=
  toHex16 sh.target_hash ++ ':' :: serializeData sh.data

/-- External inputs of one invocation: the result of `env::current_dir()`
(its value is irrelevant to the engine, only its fallibility), the result of
`loader::load` (the discovered target Source, fallible), and the process
environment `env::vars()`. -/
structure World where
  current_dir : Except Err Unit
  loadResult : Except Err (Option Source)
  vars : List (String × String)

/-- The no-change decision of `load_env` (src/hook.rs lines 50–58): both
absent, or previous hash equal to the freshly computed target hash (the
hash computation's failure propagating out of the guard). -/
def noChange (active : Option Hash) (target : Option Source) : Except Err Bool :=
  match active, target with
  | none, none => .ok true
  | some a, some t =>
    match t.hashResult with
    | .ok th => .ok (a.hash == th)
    | .error e => .error e
  | _, _ => .ok false

/-- The output modes of src/hook.rs. -/
inductive VariableOutputMode where
  | FishMode
  | PorcelainMode
  | PosixMode

/-- Embedding of `load_env` (src/hook.rs lines 35–82), preserving the
source's evaluation order: parse the previous hash, resolve the current
directory and the target Source, take the no-change early return, compute
the new target hash with `t.hash().unwrap_or(0)` (0 when no Source), parse
the ledger, build the context, then run the configuration program when a
Source exists. -/
def load_env (w : World) (shadowenv_data : List Char) : Except Err (Option (Shadowenv × Bool)) :=
  match parseActive (hashField shadowenv_data) with
  | .error e => .error e
  | .ok active =>
    match w.current_dir with
    | .error e => .error e
    | .ok _ =>
      match w.loadResult with
      | .error e => .error e
      | .ok target =>
        match noChange active target with
        | .error e => .error e
        | .ok true => .ok none
        | .ok false =>
          let target_hash : Nat :=
            match target with
            | some t => (t.hashResult.toOption).getD 0
            | none => 0
          match Data.from_str (ledgerField shadowenv_data) with
          | .error e => .error e
          | .ok data =>
            let sh := Shadowenv.new w.vars data target_hash
            match target with
            | some t =>
              match t.runResult with
              | .error _ => .error .shadowlispError
              | .ok (muts, feats) =>
                .ok (some ({ sh with mutations := muts, features := feats }, true))
            | none => .ok (some (sh, false))

/-- Modelled from the spec: the `shell-escape` dependency's whitelist — a
character needing no quoting in POSIX-style shells. -/
def whitelisted (c : Char) : Bool :=
  (decide ('a' ≤ c) && decide (c ≤ 'z')) ||
  (decide ('A' ≤ c) && decide (c ≤ 'Z')) ||
  (decide ('0' ≤ c) && decide (c ≤ '9')) ||
  decide (c = '-') || decide (c = '_') || decide (c = '=') || decide (c = '/') ||
  decide (c = ',') || decide (c = '.') || decide (c = '+')

/-- Single-quote escaping of one character inside a quoted region: a quote
becomes the close-escape-reopen sequence, everything else is literal. -/
def escQuoteChar (c : Char) : List Char :=
  if c = '\'' then ['\'', '\\', '\'', '\''] else [c]

/-- Quote-escaped body of a value. -/
def escInner : List Char → List Char
  | [] => []
  | c :: r => escQuoteChar c ++ escInner r

/-- Modelled from the spec: the escaping rule of the `shell-escape`
dependency used by `fn shell_escape` in src/hook.rs — a nonempty value of
whitelisted characters passes through unchanged, anything else is wrapped
in single quotes with embedded quotes escaped. -/
def shell_escape (cs : List Char) : List Char :=
  if !cs.isEmpty && cs.all whitelisted then cs
  else '\'' :: (escInner cs ++ ['\''])

/-- Rust `.replace(":", "' '")` on the escaped PATH value (src/hook.rs line
116): every colon becomes quote-space-quote. -/
def replaceColon : List Char → List Char
  | [] => []
  | c :: r => (if c = ':' then ['\'', ' ', '\''] else [c]) ++ replaceColon r

/-- The `pathlist` expression of src/hook.rs line 116. -/
def fishPathValue (v : List Char) : List Char :=
  replaceColon (shell_escape v)

/-- One iteration of the fish-mode export loop (src/hook.rs lines 112–125),
including the newline appended by `println!`. -/
def fishExportChunk (k : String) (v : Option String) : List Char :=
  match v with
  | some s =>
    if k = "PATH" then
      "set -gx ".data ++ k.data ++ ' ' :: (fishPathValue s.data ++ ['\n'])
    else
      "set -gx ".data ++ k.data ++ ' ' :: (shell_escape s.data ++ ['\n'])
  | none => "set -e ".data ++ k.data ++ ['\n']

/-- Fish-mode output (src/hook.rs lines 110–127). -/
def fishOut (d : List Char) (es : List (String × Option String)) : List Char :=
  "set -g __shadowenv_data ".data ++ shell_escape d ++ '\n' ::
    es.foldr (fun p acc => fishExportChunk p.1 p.2 ++ acc) []

/-- One iteration of the POSIX-mode export loop (src/hook.rs lines 103–108). -/
def posixExportChunk (k : String) (v : Option String) : List Char :=
  match v with
  | some s => "export ".data ++ k.data ++ '=' :: (shell_escape s.data ++ ['\n'])
  | none => "unset ".data ++ k.data ++ ['\n']

/-- POSIX-mode output (src/hook.rs lines 101–108). -/
def posixOut (d : List Char) (es : List (String × Option String)) : List Char :=
  "__shadowenv_data=".data ++ shell_escape d ++ '\n' ::
    es.foldr (fun p acc => posixExportChunk p.1 p.2 ++ acc) []

/-- One porcelain variable record, without its trailing record separator:
opcode 2 for a set-exported variable, opcode 3 (empty value field) for an
unset (src/hook.rs lines 136–140). -/
def porcelainRecord : String × Option String → List Char
  | (k, some s) => '\x02' :: '\x1F' :: (k.data ++ '\x1F' :: s.data)
  | (k, none) => '\x03' :: '\x1F' :: (k.data ++ ['\x1F'])

/-- The porcelain pseudo-record carrying the opaque state string under the
reserved name (src/hook.rs line 135), without its trailing separator. -/
def porcelainHeader (d : List Char) : List Char :=
  '\x01' :: '\x1F' :: ("__shadowenv_data".data ++ '\x1F' :: d)

/-- Porcelain-mode output (src/hook.rs lines 128–141): the pseudo-record
then one record per export, each terminated by the record separator 0x1E. -/
def porcelainOut (d : List Char) (es : List (String × Option String)) : List Char :=
  (porcelainHeader d ++ ['\x1E']) ++
    es.foldr (fun p acc => porcelainRecord p ++ '\x1E' :: acc) []

/-- Embedding of `apply_env` (src/hook.rs lines 97–145): serialize the state
string and render it with the export/unset set in the selected mode.  The
returned `List Char` is everything the source prints to standard output. -/
def apply_env (sh : Shadowenv) (mode : VariableOutputMode) : List Char :=
  match mode with
  | .PosixMode => posixOut (formatShadowenvData sh) sh.exports
  | .FishMode => fishOut (formatShadowenvData sh) sh.exports
  | .PorcelainMode => porcelainOut (formatShadowenvData sh) sh.exports

/-- Embedding of `run` (src/hook.rs lines 24–33).  The `ok` payload is the
standard-output text; `print_activation_to_tty` writes to the controlling
terminal, never to the machine-parsed stream, and is therefore not part of
it. -/
def run (w : World) (shadowenv_data : List Char) (mode : VariableOutputMode) :
    Except Err (List Char) :=
  match load_env w shadowenv_data with
  | .error e => .error e
  | .ok none => .ok []
  | .ok (some (sh, _activation)) => .ok (apply_env sh mode)

/-- Standard-output of one invocation: nothing is printed before `apply_env`
runs, so a failing invocation has empty output. -/
def stdoutOf (r : Except Err (List Char)) : List Char :=
  match r with
  | .ok out => out
  | .error _ => []

/-- Rust `env::set_var` on the process environment, modelled as a map. -/
def setVar (env : String → Option String) (k v : String) : String → Option String :=
  fun q => if q = k then some v else env q

/-- Embedding of `mutate_own_env` (src/hook.rs lines 84–95): returns the
serialized state string and the process environment after applying every
export — an unset operation sets the variable to the empty string. -/
def mutate_own_env (sh : Shadowenv) (env : String → Option String) :
    List Char × (String → Option String) :=
  (formatShadowenvData sh,
    sh.exports.foldl (fun e p => setVar e p.1 (p.2.getD "")) env)

/-! ## Basic facts about the previous-state parser -/

theorem Hash.from_str_error (cs : List Char) (e : Err)
    (h : Hash.from_str cs = .error e) : e = .parseError := by
  unfold Hash.from_str at h
  split at h
  · cases hx : hexAcc cs 0 <;> rw [hx] at h
    · cases h; rfl
    · cases h
  · cases h; rfl

theorem load_env_of_parse_error (w : World) (s : List Char) (e : Err)
    (h : parseActive (hashField s) = .error e) : load_env w s = .error e := by
  simp [load_env, h]

/-- C3: when the parsed previous hash is absent and no target Source is
discovered, `load_env` returns the no-change result and `run` emits empty
output, for every previous-state string — in particular regardless of the
ledger part, malformed or not, since the early return precedes the ledger
parse. -/
theorem c3_absence_stability (w : World) (s : List Char)
    (hp : parseActive (hashField s) = .ok none)
    (hcd : w.current_dir = .ok ())
    (hld : w.loadResult = .ok none) :
    load_env w s = .ok none ∧ ∀ mode, run w s mode = .ok [] := by
  have h1 : load_env w s = .ok none := by
    simp [load_env, hp, hcd, hld, noChange]
  exact ⟨h1, fun mode => by simp [run, h1]⟩

/-- Witness for C3 at a concrete input whose ledger part is malformed. -/
theorem c3_absence_stability_witness :
    load_env ⟨.ok (), .ok none, []⟩ (':' :: "garbage".data) = .ok none ∧
      run ⟨.ok (), .ok none, []⟩ (':' :: "garbage".data) .PorcelainMode = .ok [] := by
  have h := c3_absence_stability ⟨.ok (), .ok none, []⟩ (':' :: "garbage".data)
    (by decide) rfl rfl
  exact ⟨h.1, h.2 .PorcelainMode⟩

/-- C4: the hash field parses to absence exactly for the empty field and the
all-zero sentinel (the whole-input-empty case having an empty field); any
other field value either parses as a valid Hash or makes `load_env` fail
with a `ParseError`. -/
theorem c4_hash_sentinel_equivalence (s : List Char) (w : World) :
    (parseActive (hashField s) = .ok none ↔
      hashField s = [] ∨ hashField s = "0000000000000000".data) ∧
    (hashField s ≠ [] → hashField s ≠ "0000000000000000".data →
      (∃ h, parseActive (hashField s) = .ok (some h)) ∨
        load_env w s = .error .parseError) ∧
    hashField ([] : List Char) = [] := by
  refine ⟨⟨?_, ?_⟩, ?_, rfl⟩
  · intro h
    by_cases h1 : hashField s = []
    · exact Or.inl h1
    by_cases h2 : hashField s = "0000000000000000".data
    · exact Or.inr h2
    exfalso
    simp only [parseActive, if_neg h1, if_neg h2] at h
    cases hfs : Hash.from_str (hashField s) <;> rw [hfs] at h <;> cases h
  · intro h
    cases h with
    | inl h1 => simp only [parseActive, if_pos h1]
    | inr h2 => rw [h2]; decide
  · intro h1 h2
    cases hfs : Hash.from_str (hashField s) with
    | ok hh =>
      exact Or.inl ⟨hh, by simp only [parseActive, if_neg h1, if_neg h2, hfs]⟩
    | error e =>
      refine Or.inr (load_env_of_parse_error w s _ ?_)
      have he := Hash.from_str_error _ _ hfs
      subst he
      simp only [parseActive, if_neg h1, if_neg h2, hfs]

/-- Witness for C4 at a concrete malformed hash field. -/
theorem c4_hash_sentinel_equivalence_witness :
    (parseActive (hashField ("zz:x".data)) = .ok none ↔
      hashField ("zz:x".data) = [] ∨
        hashField ("zz:x".data) = "0000000000000000".data) ∧
    ((∃ h, parseActive (hashField ("zz:x".data)) = .ok (some h)) ∨
      load_env ⟨.ok (), .ok none, []⟩ ("zz:x".data) = .error .parseError) := by
  have h := c4_hash_sentinel_equivalence ("zz:x".data) ⟨.ok (), .ok none, []⟩
  exact ⟨h.1, h.2.1 (by decide) (by decide)⟩

/-- C2: when the configuration runtime fails on the target Source, `load_env`
surfaces only the opaque ShadowlispError and `run` writes nothing to the
machine-parsed output stream in any mode. -/
theorem c2_runtime_failure_opaque (w : World) (s : List Char)
    (act : Option Hash) (t : Source) (d : Data)
    (hp : parseActive (hashField s) = .ok act)
    (hcd : w.current_dir = .ok ())
    (hld : w.loadResult = .ok (some t))
    (hnc : noChange act (some t) = .ok false)
    (hd : Data.from_str (ledgerField s) = .ok d)
    (hrun : t.runResult = .error ()) :
    load_env w s = .error .shadowlispError ∧
      ∀ mode, run w s mode = .error .shadowlispError ∧
        stdoutOf (run w s mode) = [] := by
  have h1 : load_env w s = .error .shadowlispError := by
    simp [load_env, hp, hcd, hld, hnc, hd, hrun]
  refine ⟨h1, fun mode => ?_⟩
  have h2 : run w s mode = .error .shadowlispError := by simp [run, h1]
  exact ⟨h2, by simp [stdoutOf, h2]⟩

/-- Witness for C2: a failing runtime on a discovered Source, with absent
previous hash and default ledger. -/
theorem c2_runtime_failure_opaque_witness :
    load_env ⟨.ok (), .ok (some ⟨.ok 7, .error ()⟩), []⟩ [] =
        .error .shadowlispError ∧
      run ⟨.ok (), .ok (some ⟨.ok 7, .error ()⟩), []⟩ [] .PosixMode =
          .error .shadowlispError ∧
        stdoutOf (run ⟨.ok (), .ok (some ⟨.ok 7, .error ()⟩), []⟩ [] .PosixMode) = [] := by
  have h := c2_runtime_failure_opaque ⟨.ok (), .ok (some ⟨.ok 7, .error ()⟩), []⟩ []
    none ⟨.ok 7, .error ()⟩ ⟨[]⟩ (by decide) rfl rfl (by decide) rfl rfl
  exact ⟨h.1, h.2 .PosixMode⟩

/-- C7: previous hash present and no target Source: `load_env` uses the
reserved empty hash 0, marks activation false, touches no configuration
runtime (there is no Source to run), and the context's export/unset set is
exactly the replay of the parsed Undo Ledger. -/
theorem c7_removal_replay (w : World) (s : List Char) (a : Hash) (d : Data)
    (hp : parseActive (hashField s) = .ok (some a))
    (hcd : w.current_dir = .ok ())
    (hld : w.loadResult = .ok none)
    (hd : Data.from_str (ledgerField s) = .ok d) :
    load_env w s = .ok (some (Shadowenv.new w.vars d 0, false)) ∧
      (Shadowenv.new w.vars d 0).exports = d.entries := by
  constructor
  · simp [load_env, hp, hcd, hld, noChange, hd]
  · simp [Shadowenv.exports, Shadowenv.new]

/-- Witness for C7: a present previous hash, no Source, one-entry ledger. -/
theorem c7_removal_replay_witness :
    load_env ⟨.ok (), .ok none, []⟩
        ("00000000000000ff".data ++ ':' :: serializeData ⟨[("FOO", some "bar")]⟩) =
      .ok (some (Shadowenv.new [] ⟨[("FOO", some "bar")]⟩ 0, false)) ∧
      (Shadowenv.new [] ⟨[("FOO", some "bar")]⟩ 0).exports = [("FOO", some "bar")] := by
  have h := c7_removal_replay ⟨.ok (), .ok none, []⟩
    ("00000000000000ff".data ++ ':' :: serializeData ⟨[("FOO", some "bar")]⟩)
    ⟨255⟩ ⟨[("FOO", some "bar")]⟩ (by decide) rfl rfl (by decide)
  exact h

/-- Counterexample to C5 as stated: with an absent previous hash and no
target Source, a malformed ledger part is silently ignored — `load_env`
returns the no-change result instead of a ParseError, because the early
return at src/hook.rs lines 50–53 precedes the ledger parse at line 65. -/
theorem c5_counterexample :
    Data.from_str (ledgerField (':' :: "garbage!".data)) = .error .parseError ∧
      load_env ⟨.ok (), .ok none, []⟩ (':' :: "garbage!".data) = .ok none := by
  exact ⟨rfl, rfl⟩

/-- C5 (amended): whenever the invocation proceeds past the no-change check
(so a (re)activation is due), a malformed ledger part makes `load_env` fail
with a `ParseError`. -/
theorem c5_malformed_ledger_hard_failure (w : World) (s : List Char)
    (act : Option Hash) (tgt : Option Source)
    (hp : parseActive (hashField s) = .ok act)
    (hcd : w.current_dir = .ok ())
    (hld : w.loadResult = .ok tgt)
    (hnc : noChange act tgt = .ok false)
    (hm : Data.from_str (ledgerField s) = .error .parseError) :
    load_env w s = .error .parseError := by
  simp [load_env, hp, hcd, hld, hnc, hm]

/-- Witness for the amended C5: present previous hash, no Source, malformed
ledger. -/
theorem c5_malformed_ledger_hard_failure_witness :
    load_env ⟨.ok (), .ok none, []⟩ ("00000000000000ff:garbage!".data) =
      .error .parseError := by
  exact c5_malformed_ledger_hard_failure ⟨.ok (), .ok none, []⟩
    ("00000000000000ff:garbage!".data) (some ⟨255⟩) none
    (by decide) rfl rfl (by decide) (by decide)

/-- Counterexample to C6 as stated: when the previous hash is absent, a
failing `hash()` on an existing Source is not propagated — `unwrap_or(0)` at
src/hook.rs line 61 swallows it and activation proceeds with the reserved
hash 0. -/
theorem c6_counterexample :
    (⟨.error .ioError, .ok ([], [])⟩ : Source).hashResult = .error .ioError ∧
      ∀ e : Err,
        load_env ⟨.ok (), .ok (some ⟨.error .ioError, .ok ([], [])⟩), []⟩ [] ≠
          .error e := by
  refine ⟨rfl, fun e h => ?_⟩
  have hok : load_env ⟨.ok (), .ok (some ⟨.error .ioError, .ok ([], [])⟩), []⟩ [] =
      .ok (some (Shadowenv.new [] ⟨[]⟩ 0, true)) := rfl
  rw [hok] at h
  cases h

/-- C6 (amended): a hash failure on an existing target Source makes
`load_env` fail (propagated out of the hash comparison) when the previous
hash is present; when the previous hash is absent the failure is swallowed
and the reserved empty hash 0 is used instead. -/
theorem c6_hash_failure_propagates (w : World) (s : List Char)
    (a : Hash) (t : Source) (e : Err)
    (hp : parseActive (hashField s) = .ok (some a))
    (hcd : w.current_dir = .ok ())
    (hld : w.loadResult = .ok (some t))
    (hh : t.hashResult = .error e) :
    load_env w s = .error e := by
  simp [load_env, hp, hcd, hld, noChange, hh]

/-- Witness for the amended C6: present previous hash, Source whose hash
computation fails with an I/O error. -/
theorem c6_hash_failure_propagates_witness :
    load_env ⟨.ok (), .ok (some ⟨.error .ioError, .ok ([], [])⟩), []⟩
        ("00000000000000ff".data) = .error .ioError := by
  exact c6_hash_failure_propagates _ _ ⟨255⟩ ⟨.error .ioError, .ok ([], [])⟩ .ioError
    (by decide) rfl rfl rfl

/-! ## mutate_own_env -/

theorem foldl_setVar_not_mem (es : List (String × Option String))
    (env : String → Option String) (k : String)
    (hk : ∀ p ∈ es, p.1 ≠ k) :
    (es.foldl (fun e p => setVar e p.1 (p.2.getD "")) env) k = env k := by
  induction es generalizing env with
  | nil => rfl
  | cons p rest ih =>
    simp only [List.foldl_cons]
    rw [ih _ (fun q hq => hk q (List.mem_cons_of_mem _ hq))]
    have hne : k ≠ p.1 := fun h => hk p (List.mem_cons_self _ _) h.symm
    simp [setVar, hne]

theorem foldl_setVar_mem (es : List (String × Option String))
    (env : String → Option String) (k : String) (v : Option String)
    (hnd : (es.map Prod.fst).Nodup) (hmem : (k, v) ∈ es) :
    (es.foldl (fun e p => setVar e p.1 (p.2.getD "")) env) k = some (v.getD "") := by
  induction es generalizing env with
  | nil => cases hmem
  | cons p rest ih =>
    simp only [List.map_cons, List.nodup_cons] at hnd
    simp only [List.foldl_cons]
    rcases List.mem_cons.mp hmem with heq | hmem2
    · subst heq
      have hk : ∀ q ∈ rest, q.1 ≠ k := by
        intro q hq hqk
        have hmm : q.1 ∈ rest.map Prod.fst := List.mem_map_of_mem Prod.fst hq
        rw [hqk] at hmm
        exact hnd.1 hmm
      rw [foldl_setVar_not_mem rest _ k hk]
      simp [setVar]
    · exact ih _ hnd.2 hmem2

/-- C10: `mutate_own_env` applies an unset operation by setting the variable
to the empty string in the process's own environment, not by removing it —
after it runs, every variable of the export map is present, an unset one
with value `""`. -/
theorem c10_unset_becomes_empty_string (sh : Shadowenv)
    (env : String → Option String) (k : String) (v : Option String)
    (hnd : (sh.exports.map Prod.fst).Nodup) (hmem : (k, v) ∈ sh.exports) :
    (mutate_own_env sh env).2 k = some (v.getD "") := by
  exact foldl_setVar_mem sh.exports env k v hnd hmem

/-- Witness for C10: an export map with one set and one unset variable, over
an initially empty process environment. -/
theorem c10_unset_becomes_empty_string_witness :
    (mutate_own_env ⟨[], ⟨[("FOO", some "bar"), ("BAZ", none)]⟩, 0, [], []⟩
        (fun _ => none)).2 "BAZ" = some "" := by
  exact c10_unset_becomes_empty_string
    ⟨[], ⟨[("FOO", some "bar"), ("BAZ", none)]⟩, 0, [], []⟩
    (fun _ => none) "BAZ" none (by decide) (by decide)

/-! ## Canonical hash text round-trip -/

theorem hexDigitVal_hexDigitChar (d : Nat) (hd : d < 16) :
    hexDigitVal (hexDigitChar d) = some d := by
  interval_cases d <;> rfl

theorem hexDigitChar_ne_colon (d : Nat) : hexDigitChar d ≠ ':' := by
  unfold hexDigitChar
  split <;> decide

theorem toHexRev_length (w n : Nat) : (toHexRev w n).length = w := by
  induction w generalizing n with
  | zero => rfl
  | succ w ih => simp [toHexRev, ih]

theorem toHexRev_no_colon (w n : Nat) : ':' ∉ toHexRev w n := by
  induction w generalizing n with
  | zero => simp [toHexRev]
  | succ w ih =>
    intro hmem
    rcases List.mem_cons.mp hmem with h | h
    · exact hexDigitChar_ne_colon _ h.symm
    · exact ih _ h

theorem hexAcc_append (a b : List Char) (acc : Nat) :
    hexAcc (a ++ b) acc =
      match hexAcc a acc with
      | some m => hexAcc b m
      | none => none := by
  induction a generalizing acc with
  | nil => rfl
  | cons c r ih =>
    cases h : hexDigitVal c with
    | some d =>
      simp only [List.cons_append, hexAcc, h]
      exact ih _
    | none => simp only [List.cons_append, hexAcc, h]

theorem hexAcc_toHexRev (w : Nat) : ∀ n acc : Nat, n < 16 ^ w →
    hexAcc ((toHexRev w n).reverse) acc = some (acc * 16 ^ w + n) := by
  induction w with
  | zero =>
    intro n acc hn
    have h0 : n = 0 := Nat.lt_one_iff.mp hn
    subst h0
    simp [toHexRev, hexAcc]
  | succ w ih =>
    intro n acc hn
    simp only [toHexRev, List.reverse_cons]
    rw [hexAcc_append]
    have h1 : n / 16 < 16 ^ w := by
      apply Nat.div_lt_of_lt_mul
      rw [mul_comm, ← pow_succ]
      exact hn
    rw [ih (n / 16) acc h1]
    have hmod : n % 16 < 16 := Nat.mod_lt _ (by norm_num)
    simp only [hexAcc, hexDigitVal_hexDigitChar (n % 16) hmod]
    have hdm : 16 * (n / 16) + n % 16 = n := Nat.div_add_mod n 16
    congr 1
    calc 16 * (acc * 16 ^ w + n / 16) + n % 16
        = acc * (16 ^ w * 16) + (16 * (n / 16) + n % 16) := by ring
      _ = acc * 16 ^ (w + 1) + n := by rw [hdm, pow_succ]

theorem hexAcc_toHex16 (n : Nat) (hn : n < 2 ^ 64) :
    hexAcc (toHex16 n) 0 = some n := by
  have h16 : (16 : Nat) ^ 16 = 2 ^ 64 := by norm_num
  have h := hexAcc_toHexRev 16 n 0 (by rw [h16]; exact hn)
  simpa [toHex16] using h

theorem toHex16_length (n : Nat) : (toHex16 n).length = 16 := by
  simp [toHex16, toHexRev_length]

theorem Hash.from_str_toHex16 (n : Nat) (hn : n < 2 ^ 64) :
    Hash.from_str (toHex16 n) = .ok ⟨n⟩ := by
  unfold Hash.from_str
  rw [if_pos (toHex16_length n), hexAcc_toHex16 n hn]

theorem toHex16_eq_zeros_iff (n : Nat) (hn : n < 2 ^ 64) :
    toHex16 n = "0000000000000000".data ↔ n = 0 := by
  constructor
  · intro h
    have h1 := hexAcc_toHex16 n hn
    rw [h] at h1
    have h2 : hexAcc ("0000000000000000".data) 0 = some 0 := by decide
    rw [h2] at h1
    cases h1
    rfl
  · intro h
    subst h
    decide

theorem parseActive_toHex16 (n : Nat) (hn : n < 2 ^ 64) (hne : n ≠ 0) :
    parseActive (toHex16 n) = .ok (some ⟨n⟩) := by
  have h1 : toHex16 n ≠ [] := by
    intro h
    have := congrArg List.length h
    rw [toHex16_length] at this
    cases this
  have h2 : toHex16 n ≠ "0000000000000000".data :=
    fun h => hne ((toHex16_eq_zeros_iff n hn).mp h)
  simp [parseActive, h1, h2, Hash.from_str_toHex16 n hn]

theorem splitn2_no_colon_append (a b : List Char) (ha : ':' ∉ a) :
    splitn2 (a ++ ':' :: b) = (a, some b) := by
  induction a with
  | nil => simp [splitn2]
  | cons c r ih =>
    simp only [List.mem_cons, not_or] at ha
    simp [splitn2, Ne.symm ha.1, ih ha.2]

theorem hashField_format (sh : Shadowenv) :
    hashField (formatShadowenvData sh) = toHex16 sh.target_hash := by
  have hnc : ':' ∉ toHex16 sh.target_hash := by
    intro h
    exact toHexRev_no_colon 16 sh.target_hash (List.mem_reverse.mp h)
  simp [hashField, formatShadowenvData, splitn2_no_colon_append _ _ hnc]

/-! ## Idempotence -/

theorem load_env_target_hash (w : World) (s : List Char) (sh : Shadowenv)
    (b : Bool) (t : Source) (h : Nat)
    (hld : w.loadResult = .ok (some t)) (hh : t.hashResult = .ok h)
    (hle : load_env w s = .ok (some (sh, b))) :
    sh.target_hash = h := by
  unfold load_env at hle
  cases hp : parseActive (hashField s) with
  | error e => simp only [hp] at hle; exact Except.noConfusion hle
  | ok active =>
    cases hcd : w.current_dir with
    | error e => simp only [hp, hcd] at hle; exact Except.noConfusion hle
    | ok u =>
      cases hnc : noChange active (some t) with
      | error e =>
        simp only [hp, hcd, hld, hnc] at hle
        exact Except.noConfusion hle
      | ok bb =>
        cases bb
        · cases hdf : Data.from_str (ledgerField s) with
          | error e =>
            simp only [hp, hcd, hld, hnc, hdf] at hle
            exact Except.noConfusion hle
          | ok data =>
            cases hrr : t.runResult with
            | error e =>
              simp only [hp, hcd, hld, hnc, hdf, hrr] at hle
              exact Except.noConfusion hle
            | ok mf =>
              obtain ⟨muts, feats⟩ := mf
              simp only [hp, hcd, hld, hnc, hdf, hrr, Except.ok.injEq,
                Option.some.injEq, Prod.mk.injEq] at hle
              rw [← hle.1]
              simp [Shadowenv.new, hh, Except.toOption]
        · simp only [hp, hcd, hld, hnc] at hle
          exact Option.noConfusion (Except.ok.inj hle)

/-- Counterexample to C1 as stated: a target Source whose content hash is
the reserved value 0 breaks the idempotence consequence — the first
activation emits a state string whose hash field is the all-zero sentinel,
the second call parses it as absence and re-activates, emitting non-empty
output although the target Source is unchanged. -/
theorem c1_counterexample :
    load_env ⟨.ok (), .ok (some ⟨.ok 0, .ok ([], [])⟩), []⟩ [] =
        .ok (some (⟨[], ⟨[]⟩, 0, [], []⟩, true)) ∧
      formatShadowenvData ⟨[], ⟨[]⟩, 0, [], []⟩ =
        "0000000000000000".data ++ ':' :: '{' :: ['}'] ∧
      run ⟨.ok (), .ok (some ⟨.ok 0, .ok ([], [])⟩), []⟩
          (formatShadowenvData ⟨[], ⟨[]⟩, 0, [], []⟩) .PorcelainMode ≠ .ok [] := by
  refine ⟨rfl, by decide, by decide⟩

/-- C1 (amended): the no-change guarantee — a present previous hash equal to
the target Source's fresh hash makes `load_env` return None and `run` emit
nothing, having parsed no ledger and run no program — and the idempotence
consequence: re-running with the first activation's emitted state string and
an unchanged target Source produces empty output, provided the target's hash
is not the reserved empty value 0 (whose textual form is the all-zero
sentinel, parsed as absence). -/
theorem c1_no_change_idempotence (w : World) (s s1 : List Char)
    (sh : Shadowenv) (act : Bool) (mode : VariableOutputMode)
    (a : Hash) (t : Source) (h : Nat)
    (hcd : w.current_dir = .ok ())
    (hld : w.loadResult = .ok (some t)) :
    (parseActive (hashField s) = .ok (some a) → t.hashResult = .ok a.hash →
      load_env w s = .ok none ∧ run w s mode = .ok []) ∧
    (t.hashResult = .ok h → h < 2 ^ 64 → h ≠ 0 →
      load_env w s1 = .ok (some (sh, act)) →
      run w (formatShadowenvData sh) mode = .ok []) := by
  constructor
  · intro hp hh
    have h1 : load_env w s = .ok none := by
      simp [load_env, hp, hcd, hld, noChange, hh]
    exact ⟨h1, by simp [run, h1]⟩
  · intro hh hlt hne hle
    have hth : sh.target_hash = h := load_env_target_hash w s1 sh act t h hld hh hle
    have hpa : parseActive (hashField (formatShadowenvData sh)) = .ok (some ⟨h⟩) := by
      rw [hashField_format, hth]
      exact parseActive_toHex16 h hlt hne
    have h1 : load_env w (formatShadowenvData sh) = .ok none := by
      simp [load_env, hpa, hcd, hld, noChange, hh]
    simp [run, h1]

/-- Witness for the amended C1: a Source of hash 5; the first conjunct at a
state string carrying that hash, the second at the state emitted by a real
first activation from empty previous state. -/
theorem c1_no_change_idempotence_witness :
    (load_env ⟨.ok (), .ok (some ⟨.ok 5, .ok ([], [])⟩), []⟩
          ("0000000000000005".data) = .ok none ∧
        run ⟨.ok (), .ok (some ⟨.ok 5, .ok ([], [])⟩), []⟩
          ("0000000000000005".data) .PorcelainMode = .ok []) ∧
      run ⟨.ok (), .ok (some ⟨.ok 5, .ok ([], [])⟩), []⟩
        (formatShadowenvData ⟨[], ⟨[]⟩, 5, [], []⟩) .PorcelainMode = .ok [] := by
  have h := c1_no_change_idempotence ⟨.ok (), .ok (some ⟨.ok 5, .ok ([], [])⟩), []⟩
    ("0000000000000005".data) [] ⟨[], ⟨[]⟩, 5, [], []⟩ true .PorcelainMode
    ⟨5⟩ ⟨.ok 5, .ok ([], [])⟩ 5 rfl rfl
  exact ⟨h.1 (by decide) rfl, h.2 rfl (by norm_num) (by norm_num) rfl⟩

/-! ## Porcelain framing -/

/-- Chunks of a char list delimited by `sep` (a trailing separator yields a
trailing empty chunk). -/
def splitSep (sep : Char) : List Char → List (List Char)
  | [] => [[]]
  | c :: r =>
    if c = sep then [] :: splitSep sep r
    else
      match splitSep sep r with
      | h :: t => (c :: h) :: t
      | [] => [[c]]

/-- Freedom from the porcelain delimiter bytes 0x1E and 0x1F. -/
def delimFree (cs : List Char) : Prop :=
  ∀ c ∈ cs, c ≠ '\x1E' ∧ c ≠ '\x1F'

instance (cs : List Char) : Decidable (delimFree cs) := by
  unfold delimFree
  infer_instance

theorem splitSep_cons_self (sep : Char) (r : List Char) :
    splitSep sep (sep :: r) = [] :: splitSep sep r := by
  simp [splitSep]

theorem splitSep_cons_ne (sep c : Char) (r : List Char) (h : c ≠ sep) :
    splitSep sep (c :: r) =
      match splitSep sep r with
      | hd :: t => (c :: hd) :: t
      | [] => [[c]] := by
  simp [splitSep, h]

theorem splitSep_no_sep (sep : Char) (a : List Char) (ha : sep ∉ a) :
    splitSep sep a = [a] := by
  induction a with
  | nil => rfl
  | cons c r ih =>
    simp only [List.mem_cons, not_or] at ha
    rw [splitSep_cons_ne _ _ _ (Ne.symm ha.1), ih ha.2]

theorem splitSep_append (sep : Char) (a b : List Char) (ha : sep ∉ a) :
    splitSep sep (a ++ sep :: b) = a :: splitSep sep b := by
  induction a with
  | nil => simpa using splitSep_cons_self sep b
  | cons c r ih =>
    simp only [List.mem_cons, not_or] at ha
    rw [List.cons_append, splitSep_cons_ne _ _ _ (Ne.symm ha.1),
      ih ha.2]

theorem splitSep_join_records (sep : Char) (recs : List (List Char))
    (h : ∀ r ∈ recs, sep ∉ r) :
    splitSep sep (recs.foldr (fun r acc => r ++ sep :: acc) []) = recs ++ [[]] := by
  induction recs with
  | nil => rfl
  | cons r rest ih =>
    simp only [List.foldr_cons]
    rw [splitSep_append _ _ _ (h r (List.mem_cons_self _ _)),
      ih (fun q hq => h q (List.mem_cons_of_mem _ hq))]
    rfl

theorem delimFree_rs_not_mem (cs : List Char) (h : delimFree cs) : '\x1E' ∉ cs :=
  fun hm => (h _ hm).1 rfl

theorem delimFree_fs_not_mem (cs : List Char) (h : delimFree cs) : '\x1F' ∉ cs :=
  fun hm => (h _ hm).2 rfl

theorem rs_not_mem_header (d : List Char) (hd : delimFree d) :
    '\x1E' ∉ porcelainHeader d := by
  intro hmem
  simp only [porcelainHeader, List.mem_cons, List.mem_append] at hmem
  rcases hmem with h | h | h | h | h
  · cases h
  · cases h
  · exact absurd h (by decide)
  · cases h
  · exact (hd _ h).1 rfl

theorem rs_not_mem_record (p : String × Option String)
    (hk : delimFree p.1.data)
    (hv : ∀ s, p.2 = some s → delimFree s.data) :
    '\x1E' ∉ porcelainRecord p := by
  obtain ⟨k, v⟩ := p
  cases v with
  | some s =>
    intro hmem
    simp only [porcelainRecord, List.mem_cons, List.mem_append] at hmem
    rcases hmem with h | h | h | h | h
    · cases h
    · cases h
    · exact (hk _ h).1 rfl
    · cases h
    · exact ((hv s rfl) _ h).1 rfl
  | none =>
    intro hmem
    simp only [porcelainRecord, List.mem_cons, List.mem_append] at hmem
    rcases hmem with h | h | h | h
    · cases h
    · cases h
    · exact (hk _ h).1 rfl
    · simp at h

theorem splitSep_fs_header (d : List Char) (hd : delimFree d) :
    splitSep '\x1F' (porcelainHeader d) = [['\x01'], "__shadowenv_data".data, d] := by
  have h1 : splitSep '\x1F' ("__shadowenv_data".data ++ '\x1F' :: d) =
      "__shadowenv_data".data :: splitSep '\x1F' d :=
    splitSep_append _ _ _ (by decide)
  rw [porcelainHeader, splitSep_cons_ne _ _ _ (by decide), splitSep_cons_self, h1,
    splitSep_no_sep _ _ (delimFree_fs_not_mem d hd)]

theorem splitSep_fs_record (p : String × Option String)
    (hk : delimFree p.1.data)
    (hv : ∀ s, p.2 = some s → delimFree s.data) :
    splitSep '\x1F' (porcelainRecord p) =
      [[match p.2 with | some _ => '\x02' | none => '\x03'], p.1.data,
        match p.2 with | some s => s.data | none => []] := by
  obtain ⟨k, v⟩ := p
  cases v with
  | some s =>
    have h1 : splitSep '\x1F' (k.data ++ '\x1F' :: s.data) =
        k.data :: splitSep '\x1F' s.data :=
      splitSep_append _ _ _ (delimFree_fs_not_mem _ hk)
    show splitSep '\x1F' ('\x02' :: '\x1F' :: (k.data ++ '\x1F' :: s.data)) = _
    rw [splitSep_cons_ne _ _ _ (by decide), splitSep_cons_self, h1,
      splitSep_no_sep _ _ (delimFree_fs_not_mem _ ((hv s rfl)))]
  | none =>
    have h1 : splitSep '\x1F' (k.data ++ '\x1F' :: ([] : List Char)) =
        k.data :: splitSep '\x1F' [] :=
      splitSep_append _ _ _ (delimFree_fs_not_mem _ hk)
    show splitSep '\x1F' ('\x03' :: '\x1F' :: (k.data ++ ['\x1F'])) = _
    rw [splitSep_cons_ne _ _ _ (by decide), splitSep_cons_self]
    rw [show (['\x1F'] : List Char) = '\x1F' :: [] from rfl] at *
    rw [h1]
    rfl

theorem string_eq_of_data_eq (a b : String) (h : a.data = b.data) : a = b := by
  cases a
  cases b
  cases h
  rfl

theorem porcelainOut_records (d : List Char) (es : List (String × Option String)) :
    porcelainOut d es =
      porcelainHeader d ++ '\x1E' ::
        (es.map porcelainRecord).foldr (fun r acc => r ++ '\x1E' :: acc) [] := by
  simp [porcelainOut, List.foldr_map, List.append_assoc]

theorem splitSep_porcelainOut (d : List Char) (es : List (String × Option String))
    (hd : delimFree d)
    (hes : ∀ p ∈ es, delimFree p.1.data ∧ ∀ s, p.2 = some s → delimFree s.data) :
    splitSep '\x1E' (porcelainOut d es) =
      porcelainHeader d :: es.map porcelainRecord ++ [[]] := by
  have hmem : ∀ r ∈ porcelainHeader d :: es.map porcelainRecord, '\x1E' ∉ r := by
    intro r hr
    rcases List.mem_cons.mp hr with h | h
    · subst h; exact rs_not_mem_header d hd
    · obtain ⟨p, hp, hpe⟩ := List.mem_map.mp h
      rw [← hpe]
      exact rs_not_mem_record p (hes p hp).1 (hes p hp).2
  have h2 := splitSep_join_records '\x1E' (porcelainHeader d :: es.map porcelainRecord) hmem
  simp only [List.foldr_cons] at h2
  rw [porcelainOut_records d es, h2]

theorem porcelainRecord_key_eq (p q : String × Option String)
    (hkp : delimFree p.1.data) (hvp : ∀ s, p.2 = some s → delimFree s.data)
    (hkq : delimFree q.1.data) (hvq : ∀ s, q.2 = some s → delimFree s.data)
    (h : porcelainRecord p = porcelainRecord q) : p.1 = q.1 := by
  have h2 := congrArg (splitSep '\x1F') h
  rw [splitSep_fs_record p hkp hvp, splitSep_fs_record q hkq hvq] at h2
  injection h2 with ha hb
  injection hb with hc hd2
  exact string_eq_of_data_eq _ _ hc

theorem porcelainRecord_ne_header (d : List Char) (p : String × Option String) :
    porcelainRecord p ≠ porcelainHeader d := by
  intro h
  obtain ⟨k, v⟩ := p
  cases v with
  | some s =>
    have h0 := congrArg List.head? h
    simp only [porcelainRecord, porcelainHeader, List.head?_cons] at h0
    exact absurd (Option.some.inj h0) (by decide)
  | none =>
    have h0 := congrArg List.head? h
    simp only [porcelainRecord, porcelainHeader, List.head?_cons] at h0
    exact absurd (Option.some.inj h0) (by decide)

theorem porcelainRecord_ne_nil (p : String × Option String) :
    porcelainRecord p ≠ [] := by
  obtain ⟨k, v⟩ := p
  cases v <;> simp [porcelainRecord]

theorem count_porcelainRecord (es : List (String × Option String))
    (hes : ∀ p ∈ es, delimFree p.1.data ∧ ∀ s, p.2 = some s → delimFree s.data)
    (hnd : (es.map Prod.fst).Nodup) (p : String × Option String) (hp : p ∈ es) :
    (es.map porcelainRecord).count (porcelainRecord p) = 1 := by
  induction es with
  | nil => cases hp
  | cons q rest ih =>
    have hesr : ∀ r ∈ rest, delimFree r.1.data ∧ ∀ s, r.2 = some s → delimFree s.data :=
      fun r hr => hes r (List.mem_cons_of_mem _ hr)
    have hesq := hes q (List.mem_cons_self _ _)
    simp only [List.map_cons, List.nodup_cons] at hnd
    rcases List.mem_cons.mp hp with heq | hmem
    · subst heq
      rw [List.map_cons, List.count_cons_self]
      have hzero : (rest.map porcelainRecord).count (porcelainRecord p) = 0 := by
        apply List.count_eq_zero.mpr
        intro hmm
        obtain ⟨r, hr, hre⟩ := List.mem_map.mp hmm
        have hk := porcelainRecord_key_eq r p (hesr r hr).1 (hesr r hr).2
          hesq.1 hesq.2 hre
        exact hnd.1 (hk ▸ List.mem_map_of_mem Prod.fst hr)
      rw [hzero]
    · have hne : porcelainRecord p ≠ porcelainRecord q := by
        intro h
        have hk := porcelainRecord_key_eq p q (hes p hp).1 (hes p hp).2
          hesq.1 hesq.2 h
        exact hnd.1 (hk ▸ List.mem_map_of_mem Prod.fst hmem)
      rw [List.map_cons, List.count_cons_of_ne hne]
      exact ih hesr hnd.2 hmem

/-- Counterexample to C8 as stated: porcelain framing is not binary-safe —
a value containing the record separator 0x1E splits the variable's record
in two, so "exactly one record per variable with exactly two fields" fails
for that export map. -/
theorem c8_counterexample :
    splitSep '\x1E' (porcelainOut [] [("A", some (String.mk ['1', '\x1E', '2']))]) ≠
      porcelainHeader [] ::
        [("A", some (String.mk ['1', '\x1E', '2']))].map porcelainRecord ++ [[]] := by
  decide

/-- C8 (amended): in porcelain mode, provided the state string and the
export names and values contain neither delimiter byte (0x1E, 0x1F),
splitting the output on the record separator yields exactly the state
pseudo-record followed by one record per export entry (and the trailing
empty chunk); the pseudo-record carries the state string under the reserved
name `__shadowenv_data` with opcode 1; each variable record splits on the
field separator into its opcode (2 for `some`, 3 for `none`), its name, and
its value (empty for `none`); and with distinct export names each variable
has exactly one record in the output. -/
theorem c8_porcelain_framing (d : List Char) (es : List (String × Option String))
    (hd : delimFree d)
    (hes : ∀ p ∈ es, delimFree p.1.data ∧ ∀ s, p.2 = some s → delimFree s.data) :
    splitSep '\x1E' (porcelainOut d es) =
        porcelainHeader d :: es.map porcelainRecord ++ [[]] ∧
      splitSep '\x1F' (porcelainHeader d) = [['\x01'], "__shadowenv_data".data, d] ∧
      (∀ p ∈ es, splitSep '\x1F' (porcelainRecord p) =
        [[match p.2 with | some _ => '\x02' | none => '\x03'], p.1.data,
          match p.2 with | some s => s.data | none => []]) ∧
      ((es.map Prod.fst).Nodup → ∀ p ∈ es,
        (splitSep '\x1E' (porcelainOut d es)).count (porcelainRecord p) = 1) := by
  refine ⟨splitSep_porcelainOut d es hd hes, splitSep_fs_header d hd,
    fun p hp => splitSep_fs_record p (hes p hp).1 (hes p hp).2, ?_⟩
  intro hnd p hp
  rw [splitSep_porcelainOut d es hd hes, List.count_append,
    List.count_cons_of_ne (porcelainRecord_ne_header d p),
    count_porcelainRecord es hes hnd p hp,
    List.count_eq_zero.mpr (by simpa using porcelainRecord_ne_nil p)]

/-- Witness for the amended C8 at the spec's own example export map. -/
theorem c8_porcelain_framing_witness :
    splitSep '\x1E' (porcelainOut [] [("A", some "1"), ("B", none)]) =
        porcelainHeader [] ::
          [porcelainRecord ("A", some "1"), porcelainRecord ("B", none)] ++ [[]] ∧
      (splitSep '\x1E' (porcelainOut [] [("A", some "1"), ("B", none)])).count
          (porcelainRecord ("B", none)) = 1 := by
  have h := c8_porcelain_framing [] [("A", some "1"), ("B", none)]
    (by decide) (by decide)
  exact ⟨h.1, h.2.2.2 (by decide) ("B", none) (by decide)⟩

/-! ## Fish-mode PATH list semantics -/

/-- Combined effect on one original character of quote-escaping followed by
the colon replacement: a colon becomes quote-space-quote (a quoted word
break), a quote becomes the close-escape-reopen sequence, anything else is
literal. -/
def fChar (c : Char) : List Char :=
  if c = ':' then ['\'', ' ', '\''] else escQuoteChar c

/-- Expansion of a whole value by `fChar`. -/
def fexp : List Char → List Char
  | [] => []
  | c :: r => fChar c ++ fexp r

/-- Word scanner with fish quoting semantics, over the alphabet the encoder
emits: splits on unquoted spaces; a backslash escapes the next character
outside quotes; inside single quotes a backslash followed by a quote or a
backslash is that escaped character (fish's two in-quote escape sequences)
while a backslash followed by anything else stays a literal backslash; an
unterminated quote is a parse failure.  State: remaining input, inside-quote
flag, current word (none when between words), accumulated words. -/
def pw (cs : List Char) (q : Bool) (cur : Option (List Char))
    (acc : List (List Char)) : Option (List (List Char)) :=
  match cs, q with
  | [], true => none
  | [], false => some (acc ++ (match cur with | some w => [w] | none => []))
  | c :: rest, true =>
    if c = '\'' then pw rest false (some (cur.getD [])) acc
    else if c = '\\' then
      match rest with
      | c2 :: rest2 =>
        if c2 = '\'' ∨ c2 = '\\' then pw rest2 true (some (cur.getD [] ++ [c2])) acc
        else pw (c2 :: rest2) true (some (cur.getD [] ++ [c])) acc
      | [] => none
    else pw rest true (some (cur.getD [] ++ [c])) acc
  | c :: rest, false =>
    if c = '\'' then pw rest true (some (cur.getD [])) acc
    else if c = ' ' then
      match cur with
      | some w => pw rest false none (acc ++ [w])
      | none => pw rest false none acc
    else if c = '\\' then
      match rest with
      | c2 :: rest2 => pw rest2 false (some (cur.getD [] ++ [c2])) acc
      | [] => none
    else pw rest false (some (cur.getD [] ++ [c])) acc
termination_by cs.length
decreasing_by all_goals simp_wf <;> omega

/-- The words denoted by a fish-quoted text. -/
def fishWords (cs : List Char) : Option (List (List Char)) :=
  pw cs false none []

theorem replaceColon_append (a b : List Char) :
    replaceColon (a ++ b) = replaceColon a ++ replaceColon b := by
  induction a with
  | nil => rfl
  | cons c r ih => simp [replaceColon, ih]

theorem replaceColon_escInner (v : List Char) :
    replaceColon (escInner v) = fexp v := by
  induction v with
  | nil => rfl
  | cons c r ih =>
    show replaceColon (escQuoteChar c ++ escInner r) = fChar c ++ fexp r
    rw [replaceColon_append, ih]
    congr 1
    by_cases hc : c = ':'
    · subst hc; rfl
    · by_cases hq : c = '\''
      · subst hq; rfl
      · simp [escQuoteChar, fChar, replaceColon, hc, hq]

theorem replaceColon_no_colon (v : List Char) (h : ∀ c ∈ v, c ≠ ':') :
    replaceColon v = v := by
  induction v with
  | nil => rfl
  | cons c r ih =>
    simp [replaceColon, h c (List.mem_cons_self _ _),
      ih (fun x hx => h x (List.mem_cons_of_mem _ hx))]

theorem whitelisted_ne (c : Char) (h : whitelisted c = true) :
    c ≠ '\'' ∧ c ≠ ' ' ∧ c ≠ '\\' ∧ c ≠ ':' := by
  refine ⟨?_, ?_, ?_, ?_⟩ <;> intro heq <;> subst heq <;> exact absurd h (by decide)

theorem splitSep_ne_nil (sep : Char) (cs : List Char) : splitSep sep cs ≠ [] := by
  cases cs with
  | nil => simp [splitSep]
  | cons c r =>
    by_cases h : c = sep
    · simp [splitSep, h]
    · rw [splitSep_cons_ne _ _ _ h]
      split <;> simp

theorem pw_step_quote_open (X : List Char) (cur : Option (List Char))
    (acc : List (List Char)) :
    pw ('\'' :: X) false cur acc = pw X true (some (cur.getD [])) acc := by
  rw [pw.eq_def]
  simp

theorem pw_step_quote_close (X : List Char) (cur : Option (List Char))
    (acc : List (List Char)) :
    pw ('\'' :: X) true cur acc = pw X false (some (cur.getD [])) acc := by
  rw [pw.eq_def]
  simp

theorem pw_step_in_plain (c : Char) (X : List Char) (cur : Option (List Char))
    (acc : List (List Char)) (h : c ≠ '\'') (hb : c ≠ '\\') :
    pw (c :: X) true cur acc = pw X true (some (cur.getD [] ++ [c])) acc := by
  rw [pw.eq_def]
  simp [h, hb]

theorem pw_step_in_escape_quote (X : List Char) (cur : Option (List Char))
    (acc : List (List Char)) :
    pw ('\\' :: '\'' :: X) true cur acc =
      pw X true (some (cur.getD [] ++ ['\''])) acc := by
  rw [pw.eq_def]
  simp

theorem pw_nil_true (cur : Option (List Char)) (acc : List (List Char)) :
    pw [] true cur acc = none := by
  rw [pw.eq_def]

theorem pw_step_space_some (X : List Char) (w : List Char)
    (acc : List (List Char)) :
    pw (' ' :: X) false (some w) acc = pw X false none (acc ++ [w]) := by
  rw [pw.eq_def]
  simp

theorem pw_step_backslash (c2 : Char) (X : List Char) (cur : Option (List Char))
    (acc : List (List Char)) :
    pw ('\\' :: c2 :: X) false cur acc =
      pw X false (some (cur.getD [] ++ [c2])) acc := by
  rw [pw.eq_def]
  simp

theorem pw_step_out_plain (c : Char) (X : List Char) (cur : Option (List Char))
    (acc : List (List Char)) (h1 : c ≠ '\'') (h2 : c ≠ ' ') (h3 : c ≠ '\\') :
    pw (c :: X) false cur acc = pw X false (some (cur.getD [] ++ [c])) acc := by
  rw [pw.eq_def]
  simp [h1, h2, h3]

theorem pw_nil_false (cur : Option (List Char)) (acc : List (List Char)) :
    pw [] false cur acc =
      some (acc ++ (match cur with | some w => [w] | none => [])) := by
  rw [pw.eq_def]

theorem pw_quoted (v : List Char) : ∀ (w : List Char) (acc : List (List Char))
    (h : List Char) (t : List (List Char)), (∀ c ∈ v, c ≠ '\\') →
    splitSep ':' v = h :: t →
    pw (fexp v ++ ['\'']) true (some w) acc = some (acc ++ (w ++ h) :: t) := by
  induction v with
  | nil =>
    intro w acc h t _ hsp
    have hsp' : ([[]] : List (List Char)) = h :: t := hsp
    injection hsp' with hh ht
    subst hh
    subst ht
    show pw (fexp [] ++ ['\'']) true (some w) acc = some (acc ++ [w ++ []])
    rw [show fexp [] ++ ['\''] = ['\''] from rfl, pw_step_quote_close, pw_nil_false]
    simp
  | cons c r ih =>
    intro w acc h t hb hsp
    have hbr : ∀ x ∈ r, x ≠ '\\' := fun x hx => hb x (List.mem_cons_of_mem _ hx)
    obtain ⟨h', t', hr⟩ : ∃ h' t', splitSep ':' r = h' :: t' := by
      cases hq : splitSep ':' r with
      | nil => exact absurd hq (splitSep_ne_nil ':' r)
      | cons a b => exact ⟨a, b, rfl⟩
    by_cases hc : c = ':'
    · subst hc
      rw [splitSep_cons_self, hr] at hsp
      injection hsp with hh ht
      subst hh
      subst ht
      show pw ((fChar ':' ++ fexp r) ++ ['\'']) true (some w) acc = _
      have hl : (fChar ':' ++ fexp r) ++ ['\''] =
          '\'' :: ' ' :: '\'' :: (fexp r ++ ['\'']) := by
        simp [fChar]
      rw [hl, pw_step_quote_close, pw_step_space_some, pw_step_quote_open]
      simp only [Option.getD_none, Option.getD_some]
      rw [ih [] (acc ++ [w]) h' t' hbr hr]
      simp
    · by_cases hq : c = '\''
      · subst hq
        have hsc : splitSep ':' ('\'' :: r) = ('\'' :: h') :: t' := by
          rw [splitSep_cons_ne _ _ _ (by decide), hr]
        rw [hsc] at hsp
        injection hsp with hh ht
        subst hh
        subst ht
        show pw ((fChar '\'' ++ fexp r) ++ ['\'']) true (some w) acc = _
        have hl : (fChar '\'' ++ fexp r) ++ ['\''] =
            '\'' :: '\\' :: '\'' :: '\'' :: (fexp r ++ ['\'']) := by
          simp [fChar, escQuoteChar]
        rw [hl, pw_step_quote_close, pw_step_backslash, pw_step_quote_open]
        simp only [Option.getD_none, Option.getD_some]
        rw [ih _ acc h' t' hbr hr]
        simp
      · have hsc : splitSep ':' (c :: r) = (c :: h') :: t' := by
          rw [splitSep_cons_ne _ _ _ hc, hr]
        rw [hsc] at hsp
        injection hsp with hh ht
        subst hh
        subst ht
        show pw ((fChar c ++ fexp r) ++ ['\'']) true (some w) acc = _
        have hl : (fChar c ++ fexp r) ++ ['\''] = c :: (fexp r ++ ['\'']) := by
          simp [fChar, escQuoteChar, hc, hq]
        rw [hl, pw_step_in_plain c _ _ _ hq (hb c (List.mem_cons_self _ _))]
        simp only [Option.getD_none, Option.getD_some]
        rw [ih _ acc h' t' hbr hr]
        simp

theorem pw_unquoted (v : List Char) : ∀ (w : List Char) (acc : List (List Char)),
    (∀ c ∈ v, whitelisted c = true) →
    pw v false (some w) acc = some (acc ++ [w ++ v]) := by
  induction v with
  | nil =>
    intro w acc _
    rw [pw_nil_false]
    simp
  | cons c r ih =>
    intro w acc hw
    have hc := whitelisted_ne c (hw c (List.mem_cons_self _ _))
    rw [pw_step_out_plain c _ _ _ hc.1 hc.2.1 hc.2.2.1]
    simp only [Option.getD_some]
    rw [ih (w ++ [c]) acc (fun x hx => hw x (List.mem_cons_of_mem _ hx))]
    simp

theorem replaceColon_cons_ne (c : Char) (y : List Char) (h : c ≠ ':') :
    replaceColon (c :: y) = c :: replaceColon y := by
  simp [replaceColon, h]

/-- Core of the amended C9: for every backslash-free value, the fish-mode
PATH rendering — the escaped value with every colon replaced by
quote-space-quote — denotes, under fish word-splitting and unquoting,
exactly the colon-separated segments of the original value.  (A value
containing a backslash can collide with fish's in-quote escape sequences;
see the counterexample.) -/
theorem fishPathValue_words (v : List Char) (hb : ∀ c ∈ v, c ≠ '\\') :
    fishWords (fishPathValue v) = some (splitSep ':' v) := by
  by_cases hcase : (!v.isEmpty && v.all whitelisted) = true
  · have hparts := (Bool.and_eq_true _ _).mp hcase
    have hall : ∀ c ∈ v, whitelisted c = true := List.all_eq_true.mp hparts.2
    have hne : v ≠ [] := by
      intro h
      subst h
      simp at hparts
    have hesc : shell_escape v = v := by
      simp only [shell_escape, if_pos hcase]
    have hrc : replaceColon v = v :=
      replaceColon_no_colon v (fun c hc => (whitelisted_ne c (hall c hc)).2.2.2)
    rw [fishPathValue, hesc, hrc,
      splitSep_no_sep ':' v
        (fun hm => (whitelisted_ne _ (hall _ hm)).2.2.2 rfl)]
    obtain ⟨c, r, rfl⟩ : ∃ c r, v = c :: r := by
      cases v with
      | nil => exact absurd rfl hne
      | cons a b => exact ⟨a, b, rfl⟩
    have hc := whitelisted_ne c (hall c (List.mem_cons_self _ _))
    rw [fishWords, pw_step_out_plain c _ _ _ hc.1 hc.2.1 hc.2.2.1]
    simp only [Option.getD_none, List.nil_append]
    rw [pw_unquoted r [c] [] (fun x hx => hall x (List.mem_cons_of_mem _ hx))]
    simp
  · have hesc : shell_escape v = '\'' :: (escInner v ++ ['\'']) := by
      simp only [shell_escape, if_neg hcase]
    have h1 : replaceColon ('\'' :: (escInner v ++ ['\''])) =
        '\'' :: (fexp v ++ ['\'']) := by
      rw [replaceColon_cons_ne _ _ (by decide), replaceColon_append,
        replaceColon_escInner]
      rfl
    obtain ⟨h, t, hsp⟩ : ∃ h t, splitSep ':' v = h :: t := by
      cases hq : splitSep ':' v with
      | nil => exact absurd hq (splitSep_ne_nil ':' v)
      | cons a b => exact ⟨a, b, rfl⟩
    rw [fishPathValue, hesc, h1, fishWords, pw_step_quote_open]
    simp only [Option.getD_none]
    rw [pw_quoted v [] [] h t hb hsp, hsp]
    simp

/-- Counterexample to C9 as stated: for the PATH value `a\` the encoder
emits the four bytes `'a\'` — inside single quotes fish reads the
backslash-quote pair as an escaped quote character, so the string never
terminates and the emitted line is a parse error, not the single segment
`a\`; the denotation therefore differs from the value's segments. -/
theorem c9_counterexample :
    fishWords (fishPathValue ['a', '\\']) = none ∧
      fishWords (fishPathValue ['a', '\\']) ≠
        some (splitSep ':' ['a', '\\']) := by
  have h1 : fishPathValue ['a', '\\'] = ['\'', 'a', '\\', '\''] := by decide
  have h2 : fishWords (fishPathValue ['a', '\\']) = none := by
    rw [h1, fishWords, pw_step_quote_open,
      pw_step_in_plain 'a' _ _ _ (by decide) (by decide),
      pw_step_in_escape_quote, pw_nil_true]
  exact ⟨h2, by rw [h2]; simp⟩

/-- C9 (amended): in fish mode, for every PATH value free of backslashes,
the emitted `set -gx PATH ...` word list denotes — under the fish word
scanner `pw`, with fish's in-quote escape sequences — exactly the value's
colon-separated segments, re-quoted as a list rather than one scalar; every
other set variable is emitted as a single shell-escaped scalar.  (A value
containing a backslash can make the emitted line collide with fish's
in-quote escapes and fail to parse.) -/
theorem c9_fish_path_list (v : List Char) (hb : ∀ c ∈ v, c ≠ '\\') :
    fishWords (fishPathValue v) = some (splitSep ':' v) ∧
      (∀ s : String, fishExportChunk "PATH" (some s) =
        "set -gx ".data ++ "PATH".data ++ ' ' :: (fishPathValue s.data ++ ['\n'])) ∧
      (∀ k s : String, k ≠ "PATH" → fishExportChunk k (some s) =
        "set -gx ".data ++ k.data ++ ' ' :: (shell_escape s.data ++ ['\n'])) := by
  refine ⟨fishPathValue_words v hb, fun s => by simp [fishExportChunk],
    fun k s hk => by simp [fishExportChunk, hk]⟩

/-- Witness for the amended C9 on a concrete two-segment PATH (with a space
forcing the quoted form) and a concrete non-PATH variable. -/
theorem c9_fish_path_list_witness :
    fishWords (fishPathValue ("/usr/local/bin:/opt/a b".data)) =
        some (splitSep ':' ("/usr/local/bin:/opt/a b".data)) ∧
      fishExportChunk "FOO" (some "x y") =
        "set -gx ".data ++ "FOO".data ++ ' ' ::
          (shell_escape ("x y".data) ++ ['\n']) := by
  have h := c9_fish_path_list ("/usr/local/bin:/opt/a b".data) (by decide)
  exact ⟨h.1, h.2.2 "FOO" "x y" (by decide)⟩
